import Mathlib

/-
Verification of the structured-logging core of the DeployService repository
(package fast_api_logger: logger.py, formatters.py, context.py, handlers.py,
config.py), as a shallow embedding in Lean.

Python dictionaries are modelled as association lists (List (String × Val))
with first-match lookup and in-place-overwrite insertion, which reproduces
CPython's insertion-ordered dict semantics. Python values are modelled by
the inductive type Val; values on which json.dumps raises are notJson
(str() still succeeds, giving the stored string) and evil (str() raises
too). Fallible Python operations are Option-valued.
-/

namespace FastApiLogger

/-- Model of a Python runtime value as it matters to this logging core:
a string, an integer, a value rejected by json.dumps whose str() is the
stored string, or a value on which both json.dumps and str() raise. -/
inductive Val where
  | str (s : String)
  | int (n : Int)
  | notJson (s : String)
  | evil
deriving DecidableEq

/-- Association-list model of a Python dict. -/
abbrev Dict := List (String × Val)

/-- First-match lookup, the model of d[k] / d.get(k). -/
def dget : Dict → String → Option Val
  | [], _ => none
  | (k, v) :: d, key => if k = key then some v else dget d key

/-- In-place insertion, the model of d[k] = v on a dict: the first entry
with the key is overwritten in place, otherwise the pair is appended. -/
def dinsert : Dict → String → Val → Dict
  | [], key, v => [(key, v)]
  | (k, w) :: d, key, v =>
      if k = key then (k, v) :: d else (k, w) :: dinsert d key v

/-- Key list of a dict, the model of d.keys(). -/
def dkeys (d : Dict) : List String := d.map Prod.fst

/-- Attribute names of a freshly constructed logging.LogRecord, the value of
formatters._standard_logrecord_keys() (CPython, taskName included as on
Python 3.12+). -/
def logRecordKeys : List String :=
  ["name", "msg", "args", "levelname", "levelno", "pathname", "filename",
   "module", "exc_info", "exc_text", "stack_info", "lineno", "funcName",
   "created", "msecs", "relativeCreated", "thread", "threadName",
   "processName", "process", "taskName"]

/-- Reserved key set of logger.py: the LogRecord attribute names together
with message, asctime, exc_info and stack_info (logger._STANDARD_KEYS). -/
def standardKeys : List String :=
  logRecordKeys ++ ["message", "asctime", "exc_info", "stack_info"]

/-- One iteration of the sanitization loop of SafeLogger._sanitize_extra:
a reserved key is stored under key ++ "_extra", any other key as itself
(sanitized[...] = v on a dict). -/
def sanitizeStep (acc : Dict) (kv : String × Val) : Dict :=
  if kv.1 ∈ standardKeys then dinsert acc (kv.1 ++ "_extra") kv.2
  else dinsert acc kv.1 kv.2

/-- Model of SafeLogger._sanitize_extra. The first argument is the
sanitize_extra configuration toggle; an empty (or absent) mapping gives
None, with sanitization disabled the mapping passes through unchanged. -/
def sanitizeExtra (enabled : Bool) (extra : Dict) : Option Dict :=
  if extra = [] then none
  else if ¬ enabled then some extra
  else some (extra.foldl sanitizeStep [])

/-- Key renaming performed by one sanitization step. -/
def renameKey (k : String) : String :=
  if k ∈ standardKeys then k ++ "_extra" else k

/-- Whether json.dumps accepts the value. -/
def jsonEncodable : Val → Bool
  | .str _ => true
  | .int _ => true
  | .notJson _ => false
  | .evil => false

/-- Result of Python str(v): it raises only on evil. -/
def pyStr : Val → Option String
  | .str s => some s
  | .int n => some (toString n)
  | .notJson s => some s
  | .evil => none

/-- Model of formatters._safe_json_value: try json.dumps and return the
value unchanged; on failure fall back to str(); if that raises too,
return the fixed sentinel. The function is total, so no failure escapes
to the logging caller. -/
def safeJsonValue (v : Val) : Val :=
  if jsonEncodable v then v
  else
    match pyStr v with
    | some s => .str s
    | none => .str "<not serializable>"

/-- State of the _log_context ContextVar of context.py (default None). -/
abbrev ContextState := Option Dict

/-- Model of context.get_context: a copy of the stored dict, or an empty
dict when the variable holds None or an empty dict. -/
def getContext (st : ContextState) : Dict :=
  match st with
  | some ctx => if ctx = [] then [] else ctx
  | none => []

/-- One iteration of the merge loop of context.set_context: a None value
is skipped, any other value is written through dict assignment. -/
def setContextStep (c : Dict) (kv : String × Option Val) : Dict :=
  match kv.2 with
  | none => c
  | some v => dinsert c kv.1 v

/-- Model of context.set_context(**kwargs): merge the keyword arguments
into a copy of the current context and store the result. -/
def setContext (kwargs : List (String × Option Val)) (st : ContextState) :
    ContextState :=
  some (kwargs.foldl setContextStep (getContext st))

/-- Ephemeral log record as it reaches a formatter: the standard
attributes the formatters read, the formatted exception text when
exc_info is present, and the non-standard attributes merged into
record.__dict__ from the (sanitized) extra mapping. -/
structure LogRecord where
  asctimeStr : String
  levelname : String
  loggerName : String
  message : String
  moduleName : String
  funcName : String
  lineno : Int
  excText : Option String
  extra : Dict
deriving DecidableEq

/-- Model of logging.Logger.makeRecord's handling of extra: the mapping is
merged into the record's attribute dict; stdlib raises KeyError (None
here) when an extra key is "message", "asctime" or an existing record
attribute. -/
def makeRecord (asctimeStr levelname loggerName message moduleName funcName : String)
    (lineno : Int) (excText : Option String) (extra : Option Dict) :
    Option LogRecord :=
  let ed := extra.getD []
  if ed.any (fun kv =>
      decide (kv.1 ∈ logRecordKeys ∨ kv.1 = "message" ∨ kv.1 = "asctime")) then
    none
  else
    some { asctimeStr := asctimeStr, levelname := levelname,
           loggerName := loggerName, message := message,
           moduleName := moduleName, funcName := funcName, lineno := lineno,
           excText := excText, extra := ed }

/-- Base line of logging.Formatter.format at the default text template
"[%(asctime)s] [%(levelname)s] %(message)s" of config.py, with the
formatted exception appended on a new line when present (stdlib
Formatter.format behavior). -/
def formatBase (r : LogRecord) : String :=
  let s := "[" ++ r.asctimeStr ++ "] [" ++ r.levelname ++ "] " ++ r.message
  match r.excText with
  | some e => s ++ "\n" ++ e
  | none => s

/-- Ordered insertion into an ascending list of strings. -/
def insertSorted (s : String) : List String → List String
  | [] => [s]
  | t :: ts => if s < t then s :: t :: ts else t :: insertSorted s ts

/-- Model of Python sorted() on string keys. -/
def sortStrings (l : List String) : List String := l.foldr insertSorted []

/-- Sequencing of fallible renderings over a list. -/
def optionMapList {α β : Type} (f : α → Option β) : List α → Option (List β)
  | [] => some []
  | a :: as =>
      match f a, optionMapList f as with
      | some b, some bs => some (b :: bs)
      | _, _ => none

/-- One iteration of the extras.setdefault(k, v) loop of
TextFormatter.format: an absent key is appended, a present key is kept. -/
def setdefaultStep (d : Dict) (kv : String × Val) : Dict :=
  if (dget d kv.1).isSome then d else d ++ [kv]

/-- Tail fields of TextFormatter.format: the record attributes outside
the standard set and outside message/asctime, then ambient-context
entries added only for keys not already present. -/
def textTailFields (r : LogRecord) (ctx : Dict) : Dict :=
  let extras := r.extra.filter fun kv => decide (kv.1 ∉ standardKeys)
  ctx.foldl setdefaultStep extras

/-- Model of TextFormatter.format: the base line, then " | " and the
sorted k=v tail when any tail field exists. None models str() of a tail
value raising. -/
def textFormat (r : LogRecord) (ctx : Dict) : Option String :=
  let extras := textTailFields r ctx
  if extras = [] then some (formatBase r)
  else
    match optionMapList
        (fun k =>
          match dget extras k with
          | some v => (pyStr v).map fun s => k ++ "=" ++ s
          | none => none)
        (sortStrings (dkeys extras)) with
    | some parts => some (formatBase r ++ " | " ++ String.intercalate " " parts)
    | none => none

/-- Base dict of JsonFormatter.format, built by successive dict
assignments so that a timestamp key equal to a later base key behaves
exactly like the Python dict literal. -/
def jsonBase (r : LogRecord) (tsKey : String) : Dict :=
  dinsert (dinsert (dinsert (dinsert (dinsert (dinsert (dinsert []
    tsKey (.str r.asctimeStr))
    "level" (.str r.levelname))
    "logger" (.str r.loggerName))
    "message" (.str r.message))
    "module" (.str r.moduleName))
    "func" (.str r.funcName))
    "line" (.int r.lineno)

/-- Context step of JsonFormatter.format: a key already in data is left
alone, otherwise the safely-serialized value is added. -/
def ctxStep (d : Dict) (kv : String × Val) : Dict :=
  if (dget d kv.1).isSome then d else d ++ [(kv.1, safeJsonValue kv.2)]

/-- Extra step of JsonFormatter.format: standard record attributes and
"message" are skipped, everything else overwrites whatever is present. -/
def extraStep (d : Dict) (kv : String × Val) : Dict :=
  if kv.1 ∈ logRecordKeys ∨ kv.1 = "message" then d
  else dinsert d kv.1 (safeJsonValue kv.2)

/-- Output object of JsonFormatter.format: base fields, then ambient
context without overwriting, then extra with overwriting, then the
formatted traceback under "exc" when exc_info is present. -/
def jsonFormatData (r : LogRecord) (tsKey : String) (ctx : Dict) : Dict :=
  let withCtx := ctx.foldl ctxStep (jsonBase r tsKey)
  let withExtra := r.extra.foldl extraStep withCtx
  match r.excText with
  | some e => dinsert withExtra "exc" (.str e)
  | none => withExtra

/-- Lowercase hexadecimal digit. -/
def hexDigit (n : Nat) : Char :=
  if n < 10 then Char.ofNat (48 + n) else Char.ofNat (87 + n)

/-- Escaping of one character inside a JSON string, as json.dumps with
ensure_ascii=False performs it (non-ASCII characters stay literal). -/
def escapeJsonChar (c : Char) : String :=
  if c = '\"' then "\\\""
  else if c = '\\' then "\\\\"
  else if c = '\n' then "\\n"
  else if c = '\r' then "\\r"
  else if c = '\t' then "\\t"
  else if c.toNat = 8 then "\\b"
  else if c.toNat = 12 then "\\f"
  else if c.toNat < 32 then
    "\\u00" ++ String.singleton (hexDigit (c.toNat / 16)) ++
      String.singleton (hexDigit (c.toNat % 16))
  else String.singleton c

/-- Escaping of a whole JSON string body. -/
def escapeJson (s : String) : String :=
  String.join (s.toList.map escapeJsonChar)

/-- Rendering of a JSON string literal. -/
def renderJsonString (s : String) : String :=
  "\"" ++ escapeJson s ++ "\""

/-- Rendering of one value by json.dumps; None when json.dumps raises. -/
def renderJsonVal : Val → Option String
  | .str s => some (renderJsonString s)
  | .int n => some (toString n)
  | .notJson _ => none
  | .evil => none

/-- Rendering of a dict by json.dumps with default separators. -/
def renderJsonObj (d : Dict) : Option String :=
  match optionMapList
      (fun kv => (renderJsonVal kv.2).map
        fun s => renderJsonString kv.1 ++ ": " ++ s) d with
  | some parts => some ("\x7b" ++ String.intercalate ", " parts ++ "\x7d")
  | none => none

/-- Model of JsonFormatter.format: the serialized output object. -/
def jsonFormat (r : LogRecord) (tsKey : String) (ctx : Dict) : Option String :=
  renderJsonObj (jsonFormatData r tsKey ctx)

/-- All values of a dict are acceptable to json.dumps. -/
def encDict (d : Dict) : Prop := ∀ kv ∈ d, jsonEncodable kv.2 = true

/-- Static settings bundle of config.LogConfig. -/
structure LogConfig where
  level : String
  loggerName : String
  consoleEnabled : Bool
  consoleFormat : String
  textFileEnabled : Bool
  textFilePath : String
  jsonFileEnabled : Bool
  jsonFilePath : String
  rotationWhen : String
  rotationInterval : Int
  rotationBackupCount : Int
  rotationUtc : Bool
  sanitizeExtraFlag : Bool
  streamSafe : Bool
  streamDebug : Bool
  datefmt : String
  textFmt : String
  jsonTsKey : String
deriving DecidableEq

/-- Handlers built by handlers.build_handlers: the stream-safe console
handler and the two timed rotating file handlers. -/
inductive Handler where
  | console (streamSafe : Bool) (format : String) (level : String)
  | textFile (path : String) (rotWhen : String) (interval : Int)
      (backupCount : Int) (utc : Bool) (level : String)
  | jsonFile (path : String) (rotWhen : String) (interval : Int)
      (backupCount : Int) (utc : Bool) (level : String)
deriving DecidableEq

/-- Model of handlers.build_handlers: console, text file and JSON file in
that order, each only when its enable flag is set. -/
def buildHandlers (cfg : LogConfig) : List Handler :=
  (if cfg.consoleEnabled then
    [Handler.console cfg.streamSafe cfg.consoleFormat cfg.level] else []) ++
  (if cfg.textFileEnabled then
    [Handler.textFile cfg.textFilePath cfg.rotationWhen cfg.rotationInterval
      cfg.rotationBackupCount cfg.rotationUtc cfg.level] else []) ++
  (if cfg.jsonFileEnabled then
    [Handler.jsonFile cfg.jsonFilePath cfg.rotationWhen cfg.rotationInterval
      cfg.rotationBackupCount cfg.rotationUtc cfg.level] else [])

/-- Model of StreamSafeConsoleHandler.emit on the console's written-line
state: with stream_safe set and a streaming flow the record is dropped
(the state is returned unchanged: there is no queue to defer into),
otherwise the line is written. -/
def streamSafeConsoleEmit (streamSafe streaming : Bool)
    (written : List String) (line : String) : List String :=
  if streamSafe && streaming then written else written ++ [line]

/-- Emission of a rotating file handler: the line is always appended. -/
def fileEmit (written : List String) (line : String) : List String :=
  written ++ [line]

/-- Emission of one record line by one handler, given the current flow's
streaming flag. Only the console handler consults it. -/
def handlerEmit (streaming : Bool) (h : Handler)
    (written : List String) (line : String) : List String :=
  match h with
  | .console streamSafe _ _ => streamSafeConsoleEmit streamSafe streaming written line
  | .textFile _ _ _ _ _ _ => fileEmit written line
  | .jsonFile _ _ _ _ _ _ => fileEmit written line

/-- State of the logging.Logger object that logging.getLogger returns for
a fixed name (the same mutable object on every call). -/
structure LoggerState where
  level : String
  propagateFlag : Bool
  handlers : List Handler
deriving DecidableEq

/-- Model of logger.configure_logging for a given configuration on the
logger of cfg.logger_name: set level, disable propagation, and attach
the built handlers only when none are attached yet. -/
def configureLogging (cfg : LogConfig) (st : LoggerState) : LoggerState :=
  let st1 : LoggerState :=
    { st with level := cfg.level, propagateFlag := false }
  if st1.handlers = [] then { st1 with handlers := buildHandlers cfg }
  else st1

/-- Console pipeline of an info call under console_format=text: the
stream-safe gate of the console handler, then record construction with
the sanitized extra, then the text formatter. -/
def consoleInfoText (sanitizeOn streamSafe streaming : Bool)
    (asctimeStr loggerName message moduleName funcName : String) (lineno : Int)
    (extra : Dict) (ctx : Dict) : Option String :=
  if streamSafe && streaming then none
  else
    match makeRecord asctimeStr "INFO" loggerName message moduleName funcName
        lineno none (sanitizeExtra sanitizeOn extra) with
    | some r => textFormat r ctx
    | none => none

/- ------------------------------------------------------------------ -/
/- Helper lemmas about the dict model.                                 -/
/- ------------------------------------------------------------------ -/

theorem dget_nil (k : String) : dget [] k = none := rfl

theorem dget_cons (k key : String) (v : Val) (d : Dict) :
    dget ((k, v) :: d) key = if k = key then some v else dget d key := rfl

theorem dget_dinsert (d : Dict) (k key : String) (v : Val) :
    dget (dinsert d k v) key = if k = key then some v else dget d key := by
  induction d with
  | nil => simp [dinsert, dget]
  | cons hd tl ih =>
      obtain ⟨k', w⟩ := hd
      by_cases h1 : k' = k
      · subst h1
        by_cases h2 : k' = key
        · subst h2; simp [dinsert, dget]
        · simp [dinsert, dget, h2]
      · by_cases h2 : k' = key
        · subst h2
          have h3 : ¬ k = k' := fun h => h1 h.symm
          simp [dinsert, dget, h1, h3]
        · simp [dinsert, dget, h1, h2, ih]

theorem dget_append_of_isSome (d e : Dict) (k : String)
    (h : (dget d k).isSome) : dget (d ++ e) k = dget d k := by
  induction d with
  | nil => simp [dget] at h
  | cons hd tl ih =>
      obtain ⟨k', v⟩ := hd
      by_cases h1 : k' = k
      · simp [dget, h1]
      · simp [dget, h1] at h ⊢
        exact ih h

theorem dget_append_left (d e : Dict) (k : String) (v : Val)
    (h : dget d k = some v) : dget (d ++ e) k = some v := by
  rw [dget_append_of_isSome d e k (by simp [h])]; exact h

theorem dget_eq_of_mem_nodup (d : Dict) (k : String) (v : Val)
    (hmem : (k, v) ∈ d) (hnd : (dkeys d).Nodup) : dget d k = some v := by
  induction d with
  | nil => cases hmem
  | cons hd tl ih =>
      obtain ⟨k', w⟩ := hd
      have hnd' : k' ∉ dkeys tl ∧ (dkeys tl).Nodup := List.nodup_cons.mp hnd
      rcases List.mem_cons.mp hmem with h | h
      · cases h; simp [dget]
      · have hkmem : k ∈ dkeys tl := List.mem_map_of_mem Prod.fst h
        have hk : k' ≠ k := fun he => hnd'.1 (he ▸ hkmem)
        simp [dget, hk]
        exact ih h hnd'.2

theorem dget_isSome_of_mem (d : Dict) (k : String) (v : Val)
    (hmem : (k, v) ∈ d) : (dget d k).isSome := by
  induction d with
  | nil => cases hmem
  | cons hd tl ih =>
      obtain ⟨k', w⟩ := hd
      rcases List.mem_cons.mp hmem with h | h
      · cases h; simp [dget]
      · by_cases hk : k' = k <;> simp [dget, hk, ih h]

theorem dget_none_of_not_mem (d : Dict) (k : String)
    (h : k ∉ dkeys d) : dget d k = none := by
  induction d with
  | nil => rfl
  | cons hd tl ih =>
      obtain ⟨k', w⟩ := hd
      have h' : ¬ (k = k' ∨ k ∈ dkeys tl) := fun hc => h (List.mem_cons.mpr hc)
      push_neg at h'
      have hk : ¬ k' = k := fun he => h'.1 he.symm
      simp [dget, hk, ih h'.2]

theorem dinsert_eq_append_of_not_mem (d : Dict) (k : String) (v : Val)
    (h : k ∉ dkeys d) : dinsert d k v = d ++ [(k, v)] := by
  induction d with
  | nil => rfl
  | cons hd tl ih =>
      obtain ⟨k', w⟩ := hd
      have h' : ¬ (k = k' ∨ k ∈ dkeys tl) := fun hc => h (List.mem_cons.mpr hc)
      push_neg at h'
      have hk : ¬ k' = k := fun he => h'.1 he.symm
      simp [dinsert, hk, ih h'.2]

theorem sanitizeStep_eq (acc : Dict) (kv : String × Val) :
    sanitizeStep acc kv = dinsert acc (renameKey kv.1) kv.2 := by
  by_cases h : kv.1 ∈ standardKeys <;> simp [sanitizeStep, renameKey, h]

theorem sanitizeFold_eq_map (extra : Dict) (acc : Dict)
    (hnd : (dkeys acc ++ extra.map fun kv => renameKey kv.1).Nodup) :
    extra.foldl sanitizeStep acc =
      acc ++ extra.map fun kv => (renameKey kv.1, kv.2) := by
  induction extra generalizing acc with
  | nil => simp
  | cons hd tl ih =>
      obtain ⟨k, v⟩ := hd
      have hnotmem : renameKey k ∉ dkeys acc := by
        intro hmem
        rcases List.nodup_append.mp hnd with ⟨_, _, hdisj⟩
        exact hdisj hmem (by simp)
      have hstep : sanitizeStep acc (k, v) = acc ++ [(renameKey k, v)] := by
        rw [sanitizeStep_eq, dinsert_eq_append_of_not_mem _ _ _ hnotmem]
      have hnd' :
          (dkeys (acc ++ [(renameKey k, v)]) ++
            tl.map fun kv => renameKey kv.1).Nodup := by
        have : dkeys (acc ++ [(renameKey k, v)]) ++
            (tl.map fun kv => renameKey kv.1) =
            dkeys acc ++ (renameKey k :: tl.map fun kv => renameKey kv.1) := by
          simp [dkeys]
        rw [this]
        simpa using hnd
      calc ((k, v) :: tl).foldl sanitizeStep acc
          = tl.foldl sanitizeStep (sanitizeStep acc (k, v)) := rfl
        _ = tl.foldl sanitizeStep (acc ++ [(renameKey k, v)]) := by rw [hstep]
        _ = (acc ++ [(renameKey k, v)]) ++ tl.map fun kv => (renameKey kv.1, kv.2) :=
            ih _ hnd'
        _ = acc ++ ((k, v) :: tl).map fun kv => (renameKey kv.1, kv.2) := by
            simp [renameKey]

theorem dkeys_map_rename (extra : Dict) :
    dkeys (extra.map fun kv => (renameKey kv.1, kv.2)) =
      extra.map fun kv => renameKey kv.1 := by
  simp [dkeys]

theorem no_standard_key_has_extra_suffix :
    ∀ a ∈ standardKeys, ∀ b ∈ standardKeys, ¬ b ++ "_extra" = a := by decide

theorem setContextFold_not_mem (kwargs : List (String × Option Val)) (c : Dict)
    (k : String) (h : k ∉ kwargs.map Prod.fst) :
    dget (kwargs.foldl setContextStep c) k = dget c k := by
  induction kwargs generalizing c with
  | nil => rfl
  | cons hd tl ih =>
      obtain ⟨k', ov⟩ := hd
      have h' : ¬ (k = k' ∨ k ∈ tl.map Prod.fst) := fun hc => h (List.mem_cons.mpr hc)
      push_neg at h'
      have hstep : dget (setContextStep c (k', ov)) k = dget c k := by
        cases ov with
        | none => rfl
        | some v =>
            show dget (dinsert c k' v) k = dget c k
            rw [dget_dinsert, if_neg (fun he => h'.1 he.symm)]
      rw [List.foldl_cons, ih _ h'.2, hstep]

theorem setContextFold_none (kwargs : List (String × Option Val)) (c : Dict)
    (k : String) (hnd : (kwargs.map Prod.fst).Nodup)
    (hmem : (k, none) ∈ kwargs) :
    dget (kwargs.foldl setContextStep c) k = dget c k := by
  induction kwargs generalizing c with
  | nil => cases hmem
  | cons hd tl ih =>
      obtain ⟨k', ov⟩ := hd
      have hnd' := List.nodup_cons.mp hnd
      rcases List.mem_cons.mp hmem with h | h
      · cases h
        rw [List.foldl_cons]
        exact setContextFold_not_mem tl _ k hnd'.1
      · have hkm : k ∈ tl.map Prod.fst := List.mem_map_of_mem Prod.fst h
        have hk' : ¬ k' = k := fun he => hnd'.1 (he ▸ hkm)
        rw [List.foldl_cons, ih _ hnd'.2 h]
        cases ov with
        | none => rfl
        | some v =>
            show dget (dinsert c k' v) k = dget c k
            rw [dget_dinsert, if_neg hk']

theorem setContextFold_some (kwargs : List (String × Option Val)) (c : Dict)
    (k : String) (v : Val) (hnd : (kwargs.map Prod.fst).Nodup)
    (hmem : (k, some v) ∈ kwargs) :
    dget (kwargs.foldl setContextStep c) k = some v := by
  induction kwargs generalizing c with
  | nil => cases hmem
  | cons hd tl ih =>
      obtain ⟨k', ov⟩ := hd
      have hnd' := List.nodup_cons.mp hnd
      rcases List.mem_cons.mp hmem with h | h
      · cases h
        rw [List.foldl_cons]
        rw [setContextFold_not_mem tl _ k hnd'.1]
        show dget (dinsert c k v) k = some v
        rw [dget_dinsert, if_pos rfl]
      · rw [List.foldl_cons]
        exact ih _ hnd'.2 h

theorem getContext_some (d : Dict) : getContext (some d) = d := by
  by_cases h : d = [] <;> simp [getContext, h]

theorem extraFold_not_mem (extra : Dict) (d : Dict) (k : String)
    (h : k ∉ dkeys extra) :
    dget (extra.foldl extraStep d) k = dget d k := by
  induction extra generalizing d with
  | nil => rfl
  | cons hd tl ih =>
      obtain ⟨k', v⟩ := hd
      have h' : ¬ (k = k' ∨ k ∈ dkeys tl) := fun hc => h (List.mem_cons.mpr hc)
      push_neg at h'
      rw [List.foldl_cons, ih _ h'.2]
      by_cases hs : k' ∈ logRecordKeys ∨ k' = "message"
      · simp [extraStep, hs]
      · show dget (extraStep d (k', v)) k = dget d k
        simp only [extraStep, if_neg hs]
        rw [dget_dinsert, if_neg (fun he => h'.1 he.symm)]

theorem extraFold_mem (extra : Dict) (d : Dict) (k : String) (v : Val)
    (hnd : (dkeys extra).Nodup) (hmem : (k, v) ∈ extra)
    (hk : ¬ (k ∈ logRecordKeys ∨ k = "message")) :
    dget (extra.foldl extraStep d) k = some (safeJsonValue v) := by
  induction extra generalizing d with
  | nil => cases hmem
  | cons hd tl ih =>
      obtain ⟨k', w⟩ := hd
      have hnd' := List.nodup_cons.mp hnd
      rcases List.mem_cons.mp hmem with h | h
      · cases h
        rw [List.foldl_cons, extraFold_not_mem tl _ k hnd'.1]
        show dget (extraStep d (k, v)) k = some (safeJsonValue v)
        simp only [extraStep, if_neg hk]
        rw [dget_dinsert, if_pos rfl]
      · rw [List.foldl_cons]
        exact ih _ hnd'.2 h

theorem jsonData_extra_mem (r : LogRecord) (tsKey : String) (ctx : Dict)
    (k : String) (v : Val) (hnd : (dkeys r.extra).Nodup)
    (hmem : (k, v) ∈ r.extra) (hk : ¬ (k ∈ logRecordKeys ∨ k = "message"))
    (hexc : k ≠ "exc") :
    dget (jsonFormatData r tsKey ctx) k = some (safeJsonValue v) := by
  unfold jsonFormatData
  cases hx : r.excText with
  | none => exact extraFold_mem r.extra _ k v hnd hmem hk
  | some e =>
      rw [dget_dinsert, if_neg (fun he => hexc he.symm)]
      exact extraFold_mem r.extra _ k v hnd hmem hk

theorem logRecordKeys_subset_standard (k : String)
    (h : k ∈ logRecordKeys) : k ∈ standardKeys :=
  List.mem_append_left _ h

theorem not_record_key_of_not_standard (k : String)
    (h : k ∉ standardKeys) : ¬ (k ∈ logRecordKeys ∨ k = "message") := by
  rintro (hc | hc)
  · exact h (logRecordKeys_subset_standard k hc)
  · subst hc
    exact h (by decide)

theorem dget_dinsert_self_isSome (d : Dict) (k : String) (v : Val) :
    (dget (dinsert d k v) k).isSome := by
  rw [dget_dinsert, if_pos rfl]; rfl

theorem dget_dinsert_isSome (d : Dict) (k k' : String) (v : Val)
    (h : (dget d k).isSome) : (dget (dinsert d k' v) k).isSome := by
  rw [dget_dinsert]
  by_cases he : k' = k
  · rw [if_pos he]; rfl
  · rw [if_neg he]; exact h

theorem dget_jsonBase_isSome (r : LogRecord) (tsKey : String) (k : String)
    (hk : k = tsKey ∨ k = "level" ∨ k = "logger" ∨ k = "message" ∨
      k = "module" ∨ k = "func" ∨ k = "line") :
    (dget (jsonBase r tsKey) k).isSome := by
  unfold jsonBase
  rcases hk with rfl | rfl | rfl | rfl | rfl | rfl | rfl <;>
    repeat first
      | exact dget_dinsert_self_isSome _ _ _
      | apply dget_dinsert_isSome

theorem ctxFold_isSome (ctx : Dict) (d : Dict) (k : String)
    (h : (dget d k).isSome) : (dget (ctx.foldl ctxStep d) k).isSome := by
  induction ctx generalizing d with
  | nil => exact h
  | cons hd tl ih =>
      rw [List.foldl_cons]
      apply ih
      show (dget (ctxStep d hd) k).isSome
      unfold ctxStep
      by_cases hc : (dget d hd.1).isSome
      · rw [if_pos hc]; exact h
      · rw [if_neg hc, dget_append_of_isSome _ _ _ h]; exact h

theorem extraFold_isSome (extra : Dict) (d : Dict) (k : String)
    (h : (dget d k).isSome) : (dget (extra.foldl extraStep d) k).isSome := by
  induction extra generalizing d with
  | nil => exact h
  | cons hd tl ih =>
      rw [List.foldl_cons]
      apply ih
      show (dget (extraStep d hd) k).isSome
      unfold extraStep
      by_cases hc : hd.1 ∈ logRecordKeys ∨ hd.1 = "message"
      · rw [if_pos hc]; exact h
      · rw [if_neg hc]; exact dget_dinsert_isSome _ _ _ _ h

theorem jsonData_base_isSome (r : LogRecord) (tsKey : String) (ctx : Dict)
    (k : String)
    (hk : k = tsKey ∨ k = "level" ∨ k = "logger" ∨ k = "message" ∨
      k = "module" ∨ k = "func" ∨ k = "line") :
    (dget (jsonFormatData r tsKey ctx) k).isSome := by
  unfold jsonFormatData
  cases hx : r.excText with
  | none =>
      exact extraFold_isSome _ _ _
        (ctxFold_isSome _ _ _ (dget_jsonBase_isSome r tsKey k hk))
  | some e =>
      exact dget_dinsert_isSome _ _ _ _
        (extraFold_isSome _ _ _
          (ctxFold_isSome _ _ _ (dget_jsonBase_isSome r tsKey k hk)))

theorem mem_dinsert (d : Dict) (k : String) (v : Val) (kv : String × Val)
    (h : kv ∈ dinsert d k v) : kv ∈ d ∨ kv = (k, v) := by
  induction d with
  | nil =>
      right
      simpa [dinsert] using h
  | cons hd tl ih =>
      obtain ⟨k', w⟩ := hd
      have hun : dinsert ((k', w) :: tl) k v =
          if k' = k then (k', v) :: tl else (k', w) :: dinsert tl k v := rfl
      rw [hun] at h
      by_cases he : k' = k
      · rw [if_pos he] at h
        rcases List.mem_cons.mp h with h1 | h1
        · right; rw [h1, he]
        · left; exact List.mem_cons.mpr (Or.inr h1)
      · rw [if_neg he] at h
        rcases List.mem_cons.mp h with h1 | h1
        · left; exact List.mem_cons.mpr (Or.inl h1)
        · rcases ih h1 with h2 | h2
          · left; exact List.mem_cons.mpr (Or.inr h2)
          · right; exact h2

theorem jsonEncodable_safe (v : Val) :
    jsonEncodable (safeJsonValue v) = true := by
  cases v <;> simp [safeJsonValue, jsonEncodable, pyStr]

theorem encDict_dinsert (d : Dict) (k : String) (v : Val)
    (hd : encDict d) (hv : jsonEncodable v = true) :
    encDict (dinsert d k v) := by
  intro kv hkv
  rcases mem_dinsert d k v kv hkv with h | h
  · exact hd kv h
  · rw [h]; exact hv

theorem encDict_append (d e : Dict) (hd : encDict d) (he : encDict e) :
    encDict (d ++ e) := by
  intro kv hkv
  rcases List.mem_append.mp hkv with h | h
  · exact hd kv h
  · exact he kv h

theorem encDict_jsonBase (r : LogRecord) (tsKey : String) :
    encDict (jsonBase r tsKey) := by
  unfold jsonBase
  refine encDict_dinsert _ _ _ (encDict_dinsert _ _ _ (encDict_dinsert _ _ _
    (encDict_dinsert _ _ _ (encDict_dinsert _ _ _ (encDict_dinsert _ _ _
      (encDict_dinsert _ _ _ ?_ rfl) rfl) rfl) rfl) rfl) rfl) rfl
  intro kv hkv
  cases hkv

theorem encDict_ctxFold (ctx : Dict) (d : Dict) (h : encDict d) :
    encDict (ctx.foldl ctxStep d) := by
  induction ctx generalizing d with
  | nil => exact h
  | cons hd tl ih =>
      rw [List.foldl_cons]
      apply ih
      show encDict (ctxStep d hd)
      unfold ctxStep
      by_cases hc : (dget d hd.1).isSome
      · rw [if_pos hc]; exact h
      · rw [if_neg hc]
        refine encDict_append _ _ h ?_
        intro kv hkv
        have hkv' : kv = (hd.1, safeJsonValue hd.2) := by simpa using hkv
        rw [hkv']
        exact jsonEncodable_safe hd.2

theorem encDict_extraFold (extra : Dict) (d : Dict) (h : encDict d) :
    encDict (extra.foldl extraStep d) := by
  induction extra generalizing d with
  | nil => exact h
  | cons hd tl ih =>
      rw [List.foldl_cons]
      apply ih
      show encDict (extraStep d hd)
      unfold extraStep
      by_cases hc : hd.1 ∈ logRecordKeys ∨ hd.1 = "message"
      · rw [if_pos hc]; exact h
      · rw [if_neg hc]
        exact encDict_dinsert _ _ _ h (jsonEncodable_safe hd.2)

theorem encDict_jsonFormatData (r : LogRecord) (tsKey : String) (ctx : Dict) :
    encDict (jsonFormatData r tsKey ctx) := by
  unfold jsonFormatData
  cases hx : r.excText with
  | none =>
      exact encDict_extraFold _ _ (encDict_ctxFold _ _ (encDict_jsonBase r tsKey))
  | some e =>
      exact encDict_dinsert _ _ _
        (encDict_extraFold _ _ (encDict_ctxFold _ _ (encDict_jsonBase r tsKey))) rfl

theorem renderJsonVal_isSome (v : Val) (h : jsonEncodable v = true) :
    (renderJsonVal v).isSome := by
  cases v with
  | str s => rfl
  | int n => rfl
  | notJson s => exact absurd h (by simp [jsonEncodable])
  | evil => exact absurd h (by simp [jsonEncodable])

theorem optionMapList_isSome {α β : Type} (f : α → Option β) (l : List α)
    (h : ∀ a ∈ l, (f a).isSome) : (optionMapList f l).isSome := by
  induction l with
  | nil => rfl
  | cons hd tl ih =>
      have h1 : (f hd).isSome := h hd (List.mem_cons_self hd tl)
      have h2 : (optionMapList f tl).isSome :=
        ih fun a ha => h a (List.mem_cons.mpr (Or.inr ha))
      unfold optionMapList
      rcases Option.isSome_iff_exists.mp h1 with ⟨b, hb⟩
      rcases Option.isSome_iff_exists.mp h2 with ⟨bs, hbs⟩
      rw [hb, hbs]
      rfl

theorem renderJsonObj_isSome (d : Dict) (h : encDict d) :
    (renderJsonObj d).isSome := by
  unfold renderJsonObj
  have hm : (optionMapList (fun kv => (renderJsonVal kv.2).map
      fun s => renderJsonString kv.1 ++ ": " ++ s) d).isSome := by
    apply optionMapList_isSome
    intro kv hkv
    rcases Option.isSome_iff_exists.mp (renderJsonVal_isSome kv.2 (h kv hkv))
      with ⟨s, hs⟩
    rw [hs]
    rfl
  rcases Option.isSome_iff_exists.mp hm with ⟨parts, hp⟩
  rw [hp]
  rfl

/- ------------------------------------------------------------------ -/
/- Claim theorems.                                                     -/
/- ------------------------------------------------------------------ -/

/-- C1 counterexample: for the extra mapping with the reserved key
"lineno" bound to 1 next to the non-reserved key "lineno_extra" bound
to 2, enabled sanitization does not bind "lineno_extra" to the original
reserved value 1, and an input key is dropped: the rename silently
overwrites. -/
theorem sanitize_collision_counterexample :
    sanitizeExtra true [("lineno", Val.int 1), ("lineno_extra", Val.int 2)] =
      some [("lineno_extra", Val.int 2)] ∧
    ¬ dget [("lineno_extra", Val.int 2)] ("lineno" ++ "_extra") = some (Val.int 1) ∧
    ¬ ([("lineno_extra", Val.int 2)] : Dict).length =
        ([("lineno", Val.int 1), ("lineno_extra", Val.int 2)] : Dict).length := by
  decide

/-- C1 (amended): for every nonempty extra mapping whose sanitized key
names are pairwise distinct — in particular no reserved key k arrives
together with a sibling key k_extra — enabled sanitization produces a
mapping that binds k ++ "_extra" to the original value of every
reserved key k, contains no reserved key itself, leaves every
non-reserved key bound to its value, and drops no entry. -/
theorem sanitize_renames_reserved_keys (extra : Dict)
    (h1 : extra ≠ [])
    (h2 : (extra.map fun kv => renameKey kv.1).Nodup) :
    ∃ out, sanitizeExtra true extra = some out ∧
      (∀ k v, (k, v) ∈ extra → k ∈ standardKeys →
        dget out (k ++ "_extra") = some v ∧ k ∉ dkeys out) ∧
      (∀ k v, (k, v) ∈ extra → k ∉ standardKeys → dget out k = some v) ∧
      out.length = extra.length := by
  refine ⟨extra.map fun kv => (renameKey kv.1, kv.2), ?_, ?_, ?_, ?_⟩
  · have hfold := sanitizeFold_eq_map extra [] (by simpa [dkeys] using h2)
    simp [sanitizeExtra, h1, hfold]
  · intro k v hmem hstd
    have hnodup : (dkeys (extra.map fun kv => (renameKey kv.1, kv.2))).Nodup := by
      rw [dkeys_map_rename]; exact h2
    constructor
    · apply dget_eq_of_mem_nodup _ _ _ _ hnodup
      have himg : (fun kv : String × Val => (renameKey kv.1, kv.2)) (k, v) =
          (k ++ "_extra", v) := by
        simp [renameKey, hstd]
      rw [← himg]
      exact List.mem_map_of_mem _ hmem
    · rw [dkeys_map_rename]
      intro hk
      rcases List.mem_map.mp hk with ⟨kv, hkv, heq⟩
      by_cases hs : kv.1 ∈ standardKeys
      · have hsfx : kv.1 ++ "_extra" = k := by simpa [renameKey, hs] using heq
        exact no_standard_key_has_extra_suffix k hstd kv.1 hs hsfx
      · have hke : kv.1 = k := by simpa [renameKey, hs] using heq
        exact hs (hke ▸ hstd)
  · intro k v hmem hstd
    have hnodup : (dkeys (extra.map fun kv => (renameKey kv.1, kv.2))).Nodup := by
      rw [dkeys_map_rename]; exact h2
    apply dget_eq_of_mem_nodup _ _ _ _ hnodup
    have himg : (fun kv : String × Val => (renameKey kv.1, kv.2)) (k, v) = (k, v) := by
      simp [renameKey, hstd]
    rw [← himg]
    exact List.mem_map_of_mem _ hmem
  · simp

/-- Witness for the amended C1 at the mapping lineno=7, custom="c". -/
theorem sanitize_renames_reserved_keys_witness :
    ∃ out, sanitizeExtra true [("lineno", Val.int 7), ("custom", Val.str "c")] =
        some out ∧
      (∀ k v, (k, v) ∈ ([("lineno", Val.int 7), ("custom", Val.str "c")] : Dict) →
        k ∈ standardKeys →
        dget out (k ++ "_extra") = some v ∧ k ∉ dkeys out) ∧
      (∀ k v, (k, v) ∈ ([("lineno", Val.int 7), ("custom", Val.str "c")] : Dict) →
        k ∉ standardKeys → dget out k = some v) ∧
      out.length = ([("lineno", Val.int 7), ("custom", Val.str "c")] : Dict).length :=
  sanitize_renames_reserved_keys [("lineno", Val.int 7), ("custom", Val.str "c")]
    (by decide) (by decide)

/-- C6: a JSON-encodable value is emitted unchanged by _safe_json_value;
a value json.dumps rejects is replaced by its str(); when str() raises
too, the fixed sentinel string is produced. The function is total, so a
serialization failure never propagates to the logging caller. -/
theorem safeJsonValue_spec (v : Val) :
    (jsonEncodable v = true → safeJsonValue v = v) ∧
    (jsonEncodable v = false → ∀ s, pyStr v = some s → safeJsonValue v = .str s) ∧
    (jsonEncodable v = false → pyStr v = none →
      safeJsonValue v = .str "<not serializable>") := by
  refine ⟨fun h => by simp [safeJsonValue, h], ?_, ?_⟩
  · intro h s hs
    simp [safeJsonValue, h, hs]
  · intro h hs
    simp [safeJsonValue, h, hs]

/-- Witness for C6 on a non-serializable value and on a value whose
string conversion fails as well. -/
theorem safeJsonValue_spec_witness :
    safeJsonValue (Val.notJson "<Thread(w)>") = Val.str "<Thread(w)>" ∧
    safeJsonValue Val.evil = Val.str "<not serializable>" :=
  ⟨(safeJsonValue_spec (Val.notJson "<Thread(w)>")).2.1 rfl "<Thread(w)>" rfl,
   (safeJsonValue_spec Val.evil).2.2 rfl rfl⟩

/-- C7: in a set_context merge, every keyword whose value is None leaves
the observable state of its key unchanged, every keyword with a value
is added or overwritten, and keys not mentioned are untouched. -/
theorem setContext_spec (kwargs : List (String × Option Val)) (st : ContextState)
    (hnd : (kwargs.map Prod.fst).Nodup) :
    (∀ k, (k, none) ∈ kwargs →
      dget (getContext (setContext kwargs st)) k = dget (getContext st) k) ∧
    (∀ k v, (k, some v) ∈ kwargs →
      dget (getContext (setContext kwargs st)) k = some v) ∧
    (∀ k, k ∉ kwargs.map Prod.fst →
      dget (getContext (setContext kwargs st)) k = dget (getContext st) k) := by
  refine ⟨?_, ?_, ?_⟩
  · intro k hmem
    rw [setContext, getContext_some]
    exact setContextFold_none kwargs _ k hnd hmem
  · intro k v hmem
    rw [setContext, getContext_some]
    exact setContextFold_some kwargs _ k v hnd hmem
  · intro k hmem
    rw [setContext, getContext_some]
    exact setContextFold_not_mem kwargs _ k hmem

/-- Witness for C7: merging a=None, b=1 over the store holding a=5. -/
theorem setContext_spec_witness :
    (∀ k, (k, none) ∈ ([("a", none), ("b", some (Val.int 1))] :
        List (String × Option Val)) →
      dget (getContext (setContext [("a", none), ("b", some (Val.int 1))]
        (some [("a", Val.int 5)]))) k =
      dget (getContext (some [("a", Val.int 5)])) k) ∧
    (∀ k v, (k, some v) ∈ ([("a", none), ("b", some (Val.int 1))] :
        List (String × Option Val)) →
      dget (getContext (setContext [("a", none), ("b", some (Val.int 1))]
        (some [("a", Val.int 5)]))) k = some v) ∧
    (∀ k, k ∉ ([("a", none), ("b", some (Val.int 1))] :
        List (String × Option Val)).map Prod.fst →
      dget (getContext (setContext [("a", none), ("b", some (Val.int 1))]
        (some [("a", Val.int 5)]))) k =
      dget (getContext (some [("a", Val.int 5)])) k) :=
  setContext_spec [("a", none), ("b", some (Val.int 1))]
    (some [("a", Val.int 5)]) (by decide)

/-- C2: for a key present in both the ambient context and the record's
extra fields, the extra value wins in both formatters. In general the
JSON object maps any non-reserved extra key to its safely-serialized
extra value whatever the ambient context holds; in the concrete
scenario with ambient a=1 and extra a=2 the JSON object maps a to 2 and
the text tail reads a=2, so the ambient value 1 appears in neither
output. -/
theorem extra_wins_precedence :
    (∀ (r : LogRecord) (tsKey : String) (ctx : Dict) (k : String) (v : Val),
      (dkeys r.extra).Nodup → (k, v) ∈ r.extra →
      ¬ (k ∈ logRecordKeys ∨ k = "message") → k ≠ "exc" →
      dget (jsonFormatData r tsKey ctx) k = some (safeJsonValue v)) ∧
    dget (jsonFormatData
      { asctimeStr := "t", levelname := "INFO", loggerName := "app",
        message := "hello", moduleName := "m", funcName := "f", lineno := 1,
        excText := none, extra := [("a", Val.int 2)] } "ts"
      [("a", Val.int 1)]) "a" = some (Val.int 2) ∧
    textFormat
      { asctimeStr := "t", levelname := "INFO", loggerName := "app",
        message := "hello", moduleName := "m", funcName := "f", lineno := 1,
        excText := none, extra := [("a", Val.int 2)] }
      [("a", Val.int 1)] = some "[t] [INFO] hello | a=2" := by
  refine ⟨?_, by decide, by decide⟩
  intro r tsKey ctx k v hnd hmem hk hexc
  exact jsonData_extra_mem r tsKey ctx k v hnd hmem hk hexc

/-- Witness for C2's general part at extra b="y" against ambient b="z". -/
theorem extra_wins_precedence_witness :
    dget (jsonFormatData
      { asctimeStr := "t", levelname := "INFO", loggerName := "app",
        message := "hello", moduleName := "m", funcName := "f", lineno := 1,
        excText := none, extra := [("b", Val.str "y")] } "ts"
      [("b", Val.str "z")]) "b" = some (safeJsonValue (Val.str "y")) :=
  extra_wins_precedence.1
    { asctimeStr := "t", levelname := "INFO", loggerName := "app",
      message := "hello", moduleName := "m", funcName := "f", lineno := 1,
      excText := none, extra := [("b", Val.str "y")] }
    "ts" [("b", Val.str "z")] "b" (Val.str "y")
    (by decide) (by decide) (by decide) (by decide)

/-- C9: an extra key equal to one of the JSON formatter's own output key
names — level, logger, func, line, or a configured timestamp key that
is no LogRecord attribute — is not in the reserved set, so enabled
sanitization leaves it unchanged and the JSON output maps it to the
caller's extra value, replacing the base record value; and sanitizing
an empty or absent extra mapping yields None, not an empty mapping. -/
theorem json_output_keys_not_reserved (k : String) (v : Val) (r : LogRecord)
    (tsKey : String) (ctx : Dict)
    (hk : k = "level" ∨ k = "logger" ∨ k = "func" ∨ k = "line" ∨ k = tsKey)
    (hts : tsKey ∉ standardKeys) (hexc : k ≠ "exc")
    (hex : r.extra = [(k, v)]) :
    k ∉ standardKeys ∧
    sanitizeExtra true [(k, v)] = some [(k, v)] ∧
    dget (jsonFormatData r tsKey ctx) k = some (safeJsonValue v) ∧
    (∀ b, sanitizeExtra b [] = none) := by
  have hstd : k ∉ standardKeys := by
    rcases hk with rfl | rfl | rfl | rfl | rfl
    · decide
    · decide
    · decide
    · decide
    · exact hts
  refine ⟨hstd, ?_, ?_, fun b => rfl⟩
  · have hstep : sanitizeStep [] (k, v) = [(k, v)] := by
      simp [sanitizeStep, hstd, dinsert]
    simp [sanitizeExtra, hstep]
  · apply jsonData_extra_mem r tsKey ctx k v
    · rw [hex]; simp [dkeys]
    · rw [hex]; simp
    · exact not_record_key_of_not_standard k hstd
    · exact hexc

/-- Witness for C9 at the extra key level="x" with timestamp key ts. -/
theorem json_output_keys_not_reserved_witness :
    "level" ∉ standardKeys ∧
    sanitizeExtra true [("level", Val.str "x")] =
      some [("level", Val.str "x")] ∧
    dget (jsonFormatData
      { asctimeStr := "t", levelname := "INFO", loggerName := "app",
        message := "hello", moduleName := "m", funcName := "f", lineno := 1,
        excText := none, extra := [("level", Val.str "x")] } "ts" [])
      "level" = some (safeJsonValue (Val.str "x")) ∧
    (∀ b, sanitizeExtra b [] = none) :=
  json_output_keys_not_reserved "level" (Val.str "x")
    { asctimeStr := "t", levelname := "INFO", loggerName := "app",
      message := "hello", moduleName := "m", funcName := "f", lineno := 1,
      excText := none, extra := [("level", Val.str "x")] }
    "ts" [] (Or.inl rfl) (by decide) (by decide) rfl

/-- C3 counterexample: under level=INFO, console_format=text,
stream_safe=true and isStreaming()==false, info("hello", extra with
level="x") does not produce the tail level_extra=x the claim states. -/
theorem streaming_scenario_counterexample :
    consoleInfoText true true false "t" "app" "hello" "m" "f" 1
      [("level", Val.str "x")] [] ≠
      some "[t] [INFO] hello | level_extra=x" := by decide

/-- C3 (amended): the scenario's console line is
[<ts>] [INFO] hello | level=x — the extra key level is not a reserved
LogRecord attribute name, so sanitization passes it through unrenamed
into the rendered tail. -/
theorem streaming_scenario_line :
    consoleInfoText true true false "t" "app" "hello" "m" "f" 1
      [("level", Val.str "x")] [] = some "[t] [INFO] hello | level=x" ∧
    "level" ∉ standardKeys := by decide

/-- C4: on each emission, a console sink with the stream-safe flag set
drops the record while the flow is streaming — the written-line state,
the only state there is, is returned unchanged, so nothing is queued or
deferred; the rotating file sinks write the record in that same state;
and with stream-safe disabled or the flow not streaming the console
write proceeds normally. -/
theorem stream_suppression_spec (streamSafe streaming : Bool)
    (written : List String) (line : String) :
    (streamSafe = true → streaming = true →
      ∀ fmt lv, handlerEmit streaming (Handler.console streamSafe fmt lv)
        written line = written) ∧
    (∀ p w i b u lv, handlerEmit streaming (Handler.textFile p w i b u lv)
      written line = written ++ [line]) ∧
    (∀ p w i b u lv, handlerEmit streaming (Handler.jsonFile p w i b u lv)
      written line = written ++ [line]) ∧
    ((streamSafe = false ∨ streaming = false) →
      ∀ fmt lv, handlerEmit streaming (Handler.console streamSafe fmt lv)
        written line = written ++ [line]) := by
  refine ⟨?_, fun p w i b u lv => rfl, fun p w i b u lv => rfl, ?_⟩
  · intro h1 h2 fmt lv
    subst h1; subst h2
    rfl
  · intro h fmt lv
    show streamSafeConsoleEmit streamSafe streaming written line = written ++ [line]
    rcases h with rfl | rfl
    · rfl
    · simp [streamSafeConsoleEmit]

/-- Witness for C4: a streaming flow with stream-safe on writes nothing
on the console but a file handler still writes, and a console handler
without stream-safe writes even while streaming. -/
theorem stream_suppression_spec_witness :
    handlerEmit true (Handler.console true "text" "INFO") [] "x" = [] ∧
    handlerEmit true (Handler.textFile "logs/app.log" "midnight" 1 7 false "INFO")
      [] "x" = ["x"] ∧
    handlerEmit true (Handler.console false "text" "INFO") [] "x" = ["x"] :=
  ⟨(stream_suppression_spec true true [] "x").1 rfl rfl "text" "INFO",
   (stream_suppression_spec true true [] "x").2.1 "logs/app.log" "midnight" 1 7
     false "INFO",
   (stream_suppression_spec false true [] "x").2.2.2 (Or.inl rfl) "text" "INFO"⟩

/-- C5: configuration is idempotent — configuring the same logger twice
with a fixed configuration yields the very state one call yields, hence
exactly the same number of attached sinks; the second call attaches no
handlers. -/
theorem configureLogging_idempotent (cfg : LogConfig) (st : LoggerState) :
    configureLogging cfg (configureLogging cfg st) = configureLogging cfg st ∧
    (configureLogging cfg (configureLogging cfg st)).handlers.length =
      (configureLogging cfg st).handlers.length := by
  have h : configureLogging cfg (configureLogging cfg st) =
      configureLogging cfg st := by
    unfold configureLogging
    by_cases h1 : st.handlers = []
    · by_cases h2 : buildHandlers cfg = []
      · simp [h1, h2]
      · simp [h1, h2]
    · simp [h1]
  exact ⟨h, by rw [h]⟩

/-- C8: every line the JSON formatter emits is the successful json.dumps
rendering of its output object — valid JSON by construction of
renderJsonObj — and that object contains the configured timestamp key
and the fixed level, logger, message, module, func and line keys, for
every record, ambient context and extra-field set: adding ambient or
extra fields never removes a base key. -/
theorem jsonFormat_valid_and_base_keys (r : LogRecord) (tsKey : String)
    (ctx : Dict) :
    (∃ s, jsonFormat r tsKey ctx = some s ∧
      renderJsonObj (jsonFormatData r tsKey ctx) = some s) ∧
    (∀ k, k = tsKey ∨ k = "level" ∨ k = "logger" ∨ k = "message" ∨
        k = "module" ∨ k = "func" ∨ k = "line" →
      (dget (jsonFormatData r tsKey ctx) k).isSome) := by
  constructor
  · rcases Option.isSome_iff_exists.mp
      (renderJsonObj_isSome _ (encDict_jsonFormatData r tsKey ctx)) with ⟨s, hs⟩
    exact ⟨s, hs, hs⟩
  · intro k hk
    exact jsonData_base_isSome r tsKey ctx k hk

/-- Witness for C8's base-key part at an ambient field and a
non-serializable extra field. -/
theorem jsonFormat_valid_and_base_keys_witness :
    (dget (jsonFormatData
      { asctimeStr := "t", levelname := "INFO", loggerName := "app",
        message := "hello", moduleName := "m", funcName := "f", lineno := 1,
        excText := none, extra := [("bad", Val.notJson "<obj>")] } "ts"
      [("rid", Val.str "r1")]) "level").isSome :=
  (jsonFormat_valid_and_base_keys
    { asctimeStr := "t", levelname := "INFO", loggerName := "app",
      message := "hello", moduleName := "m", funcName := "f", lineno := 1,
      excText := none, extra := [("bad", Val.notJson "<obj>")] } "ts"
    [("rid", Val.str "r1")]).2 "level" (Or.inr (Or.inl rfl))

end FastApiLogger
